import Mathlib

set_option maxRecDepth 100000

/-! Shallow embedding of the ComfyUI-Node-Translator core: the node-metadata
extraction (`node_parser.py`), the translation validation and convergence
pipeline (`translator.py`) and the static configuration tables
(`translation_config.py`).  Dictionaries are modelled as association lists,
JSON-shaped provider replies as records of optional fields, and the
"contains a Chinese character" heuristic as a scan over the CJK range. -/

/-- A character of the CJK unified range, as tested by `_has_chinese`
(`'一' <= ch <= '鿿'`). -/
def isChineseChar (c : Char) : Bool := 0x4e00 ≤ c.toNat && c.toNat ≤ 0x9fff

/-- Source `Translator._has_chinese`: some character of the string is in the CJK range. -/
def has_chinese (s : String) : Bool := s.toList.any isChineseChar

/-- Python `d[k] = v` on an association list: replace the value at the first
occurrence of the key, otherwise append the new pair at the end. -/
def setEntry {α : Type} (k : String) (v : α) : List (String × α) → List (String × α)
  | [] => [(k, v)]
  | (k', v') :: rest => if k' = k then (k', v) :: rest else (k', v') :: setEntry k v rest

/-- The key list of an association list (Python `d.keys()`). -/
def keysOf {α : Type} (l : List (String × α)) : List String := l.map Prod.fst

/-- Python `d.get(k)`: the value at the first occurrence of the key. -/
def lookupA {α : Type} (k : String) : List (String × α) → Option α
  | [] => none
  | (k', v) :: rest => if k' = k then some v else lookupA k rest

/-- Python truthiness of an optional string: `None` and `""` are falsy. -/
def pyTruthy (s : Option String) : Bool :=
  match s with
  | some t => t ≠ ""
  | none => false

/-- ASCII lower-casing of one character; the keys the pipeline lower-cases
are ASCII identifiers, where Python `str.lower` agrees with this. -/
def charLower (c : Char) : Char :=
  if 'A' ≤ c && c ≤ 'Z' then Char.ofNat (c.toNat + 32) else c

/-- Python `s.lower()` over ASCII keys. -/
def strLower (s : String) : String := String.mk (s.toList.map charLower)

/-- ASCII upper-casing of one character. -/
def charUpper (c : Char) : Char :=
  if 'a' ≤ c && c ≤ 'z' then Char.ofNat (c.toNat - 32) else c

/-- Python `s.upper()` over ASCII keys. -/
def strUpper (s : String) : String := String.mk (s.toList.map charUpper)

/-- Python `c in s` for a single character. -/
def str_contains_char (t : String) (c : Char) : Bool := t.toList.contains c

/-- Source `TranslationConfig.PRESERVED_TYPES` (translation_config.py). -/
def PRESERVED_TYPES : List String :=
  ["IMAGE", "MASK", "MODEL", "CROP_DATA", "ZIP", "PDF", "CSV",
   "INT", "FLOAT", "BOOLEAN", "STRING", "BBOX_LIST"]

/-- Source `TranslationConfig.COMMON_TRANSLATIONS` (translation_config.py). -/
def COMMON_TRANSLATIONS : List (String × String) :=
  [("image", "图像"), ("mask", "遮罩"), ("model", "模型"), ("processor", "处理器"),
   ("device", "设备"), ("bbox", "边界框"), ("samples", "样本"), ("operation", "操作"),
   ("guide", "引导图"), ("source", "源"), ("destination", "目标"), ("threshold", "阈值"),
   ("radius", "半径"), ("epsilon", "epsilon"), ("contrast", "对比度"), ("brightness", "亮度"),
   ("saturation", "饱和度"), ("hue", "色调"), ("gamma", "伽马值"), ("index", "索引"),
   ("position", "位置"), ("size", "大小"), ("scale", "缩放"), ("dilation", "膨胀"),
   ("count", "计数"), ("result", "结果")]

/-- The local `translations` table of `Translator._is_valid_translation`
(translator.py lines 888-935): key, canonical option set. -/
def VALIDATOR_TRANSLATIONS : List (String × List String) :=
  [("image", ["图像", "图片"]), ("mask", ["遮罩", "掩码", "蒙版"]), ("model", ["模型"]),
   ("processor", ["处理器"]), ("device", ["设备"]), ("bbox", ["边界框", "边框"]),
   ("samples", ["样本"]), ("operation", ["操作"]), ("guide", ["引导图"]),
   ("radius", ["半径"]), ("epsilon", ["epsilon", "eps"]), ("threshold", ["阈值"]),
   ("contrast", ["对比度"]), ("brightness", ["亮度"]), ("saturation", ["饱和度"]),
   ("hue", ["色调"]), ("gamma", ["伽马"]), ("input", ["输入"]), ("output", ["输出"]),
   ("weight", ["权重"]), ("bias", ["偏置"]), ("scale", ["缩放"]), ("factor", ["因子"]),
   ("strength", ["强度"]), ("value", ["值"]), ("color", ["颜色"]), ("size", ["尺寸"]),
   ("width", ["宽度"]), ("height", ["高度"]), ("depth", ["深度"]), ("channel", ["通道"]),
   ("index", ["索引"]), ("count", ["计数"]), ("number", ["数量"]), ("type", ["类型"]),
   ("mode", ["模式"]), ("method", ["方法"]), ("algorithm", ["算法"]),
   ("function", ["函数"]), ("parameter", ["参数"]), ("setting", ["设置"]),
   ("option", ["选项"]), ("enable", ["启用"]), ("disable", ["禁用"]),
   ("true", ["是", "真"]), ("false", ["否", "假"])]

/-- The path/shell-special characters rejected by `_is_valid_translation`. -/
def SPECIAL_CHARS : List Char := ['\\', '/', ':', '*', '?', '\"', '<', '>', '|']

/-- Source `Translator._is_valid_translation`.  The candidate is `Option String`:
`none` stands for a Python value that is not a string (the `isinstance`
check); the empty string is the falsy-string case of `not chinese_text`. -/
def is_valid_translation (english_key : String) (chinese_text : Option String) : Bool :=
  match chinese_text with
  | none => false
  | some t =>
    if t = "" then false
    else if !has_chinese t then false
    else if SPECIAL_CHARS.any (fun c => str_contains_char t c) then false
    else if 3 * english_key.length + 10 < t.length then false
    else
      match lookupA (strLower english_key) VALIDATOR_TRANSLATIONS with
      | some opts => opts.contains t
      | none => true

/-- The per-key decision of `_strict_validate_and_correct_batch` for the
`inputs`/`widgets`/`outputs` sections (translator.py lines 484-514):
preserved type, then standard dictionary, then validated provider value,
then the key itself. -/
def decide_value (key : String) (trans_section : List (String × String)) : String :=
  if PRESERVED_TYPES.contains (strUpper key) then strUpper key
  else
    match lookupA (strLower key) COMMON_TRANSLATIONS with
    | some std => std
    | none =>
      match lookupA key trans_section with
      | some v => if is_valid_translation key (some v) then v else key
      | none => key

/-- A node record as assembled by `translate_nodes` (`full_batch_data`): every
field is read with `.get` and a default, so all fields are total here. -/
structure NodeRec where
  class_name : String := ""
  mapped_name : String := ""
  title : String := ""
  inputs : List (String × String) := []
  widgets : List (String × String) := []
  outputs : List (String × String) := []
  tooltips : List (String × String) := []
  source_file : String := ""
deriving DecidableEq

/-- A provider-returned node object as decoded from the model reply: any
field may be absent, hence every field is optional. -/
structure TransRec where
  title : Option String := none
  inputs : Option (List (String × String)) := none
  widgets : Option (List (String × String)) := none
  outputs : Option (List (String × String)) := none
  tooltips : Option (List (String × String)) := none
deriving DecidableEq

/-- The record with all defaults, i.e. the dict inserted by
`current_nodes.setdefault` in `_merge_translations`. -/
def emptyNodeRec : NodeRec := {}

/-- One section of `_strict_validate_and_correct_batch`: every original key is
kept, its value decided by `decide_value`. -/
def correct_section (orig_section trans_section : List (String × String)) :
    List (String × String) :=
  orig_section.map (fun kv => (kv.1, decide_value kv.1 trans_section))

/-- The tooltip target keys of `_strict_validate_and_correct_batch`: the union
of the original inputs, widgets and tooltips keys. -/
def tooltip_target_keys (orig : NodeRec) : List String :=
  (keysOf orig.inputs ++ keysOf orig.widgets ++ keysOf orig.tooltips).dedup

/-- The tooltip handling of `_strict_validate_and_correct_batch` (lines
516-535): a provider tooltip is kept if plausible, an original tooltip is kept
when the provider offers none, an implausible provider tooltip yields no entry. -/
def strict_tooltips (orig : NodeRec) (trans_tooltips : List (String × String)) :
    List (String × String) :=
  (tooltip_target_keys orig).filterMap (fun k =>
    match lookupA k trans_tooltips with
    | some v => if is_valid_translation k (some v) then some (k, v) else none
    | none => (lookupA k orig.tooltips).map (fun ov => (k, ov)))

/-- The per-node body of `_strict_validate_and_correct_batch`. -/
def strict_validate_node (orig : NodeRec) (trans : TransRec) : NodeRec :=
  { class_name := orig.class_name
    mapped_name := orig.mapped_name
    title := trans.title.getD orig.title
    inputs := correct_section orig.inputs (trans.inputs.getD [])
    widgets := correct_section orig.widgets (trans.widgets.getD [])
    outputs := correct_section orig.outputs (trans.outputs.getD [])
    tooltips := strict_tooltips orig (trans.tooltips.getD [])
    source_file := orig.source_file }

/-- Source `Translator._strict_validate_and_correct_batch`: iterate the original
batch; an untranslated node is copied verbatim. -/
def strict_validate_and_correct_batch (orig_batch : List (String × NodeRec))
    (trans_batch : List (String × TransRec)) : List (String × NodeRec) :=
  orig_batch.map (fun nv =>
    match lookupA nv.1 trans_batch with
    | none => nv
    | some t => (nv.1, strict_validate_node nv.2 t))

/-- The Python `or`-chain used for `display` in `_final_validation`:
first truthy optional string, else the default. -/
def firstTruthy : List (Option String) → String → String
  | [], d => d
  | o :: rest, d =>
    match o with
    | some s => if s = "" then firstTruthy rest d else s
    | none => firstTruthy rest d

/-- One section of `_final_validation`: every original key kept, the provider
value used verbatim when present, otherwise the key itself. -/
def final_section (orig_section trans_section : List (String × String)) :
    List (String × String) :=
  orig_section.map (fun kv => (kv.1, (lookupA kv.1 trans_section).getD kv.1))

/-- The tooltip target keys of `_final_validation`: original inputs/widgets
keys, the translated inputs/widgets keys, and the original tooltips keys. -/
def final_tooltip_targets (orig : NodeRec) (ti tw : List (String × String)) :
    List String :=
  (keysOf orig.inputs ++ keysOf orig.widgets ++ keysOf ti ++ keysOf tw ++
    keysOf orig.tooltips).dedup

/-- One tooltip entry of `_final_validation` (translator.py lines 598-625):
the display text is the Python `or`-chain over the validated and translated
sections, the tip comes from the provider's tooltips, else from translating
the original tooltip or a documentation line (`doc_to_tip` stands for
`_translate_doc_line_to_tooltip`, `find_doc` for `_find_doc_line`; `none`
models a raised exception), else the default Chinese sentence. -/
def final_tooltip_entry (find_doc : String → Option String)
    (doc_to_tip : String → String → Option String) (orig : NodeRec)
    (ti tw tt vIn vW : List (String × String)) (k : String) : String × String :=
  let display := firstTruthy [lookupA k vIn, lookupA k vW, lookupA k ti, lookupA k tw] k
  let tip0 : Option String :=
    match lookupA k tt with
    | some v => some v
    | none =>
      let t1 : Option String :=
        match lookupA k orig.tooltips with
        | some ot => doc_to_tip ot display
        | none => none
      if pyTruthy t1 then t1
      else
        match find_doc k with
        | some line => if line = "" then none else doc_to_tip line display
        | none => none
  let tip := if pyTruthy tip0 then tip0.getD "" else "该参数用于设置“" ++ display ++ "”"
  (k, tip)

/-- The per-node body of `_final_validation` (translator.py lines 562-627). -/
def final_validate_node (find_doc : String → Option String)
    (doc_to_tip : String → String → Option String)
    (orig : NodeRec) (trans : TransRec) : NodeRec :=
  let ti := trans.inputs.getD []
  let tw := trans.widgets.getD []
  let vIn := final_section orig.inputs ti
  let vW := final_section orig.widgets tw
  let vOut := final_section orig.outputs (trans.outputs.getD [])
  let tt := trans.tooltips.getD []
  let tips := (final_tooltip_targets orig ti tw).map
    (final_tooltip_entry find_doc doc_to_tip orig ti tw tt vIn vW)
  { class_name := orig.class_name
    mapped_name := orig.mapped_name
    title := trans.title.getD orig.title
    inputs := vIn
    widgets := vW
    outputs := vOut
    tooltips := tips
    source_file := orig.source_file }

/-- Source `Translator._final_validation`: untranslated nodes and nodes missing a
required field are copied verbatim from the original map. -/
def final_validation (find_doc : String → Option String)
    (doc_to_tip : String → String → Option String)
    (original_nodes : List (String × NodeRec))
    (translated_nodes : List (String × TransRec)) : List (String × NodeRec) :=
  original_nodes.map (fun nv =>
    match lookupA nv.1 translated_nodes with
    | none => nv
    | some t =>
      if t.title.isSome && t.inputs.isSome && t.widgets.isSome && t.outputs.isSome
      then (nv.1, final_validate_node find_doc doc_to_tip nv.2 t)
      else nv)

/-- The section update of `_merge_translations`: every provider pair whose
value contains a Chinese character is written into the section. -/
def merge_section (sec tsec : List (String × String)) : List (String × String) :=
  tsec.foldl (fun acc kv => if has_chinese kv.2 then setEntry kv.1 kv.2 acc else acc) sec

/-- The title update of `_merge_translations`: a truthy provider title with a
Chinese character replaces the current title (`has_chinese` is false on the
empty string, covering the Python truthiness test). -/
def merge_title (curr : NodeRec) (tt : Option String) : NodeRec :=
  match tt with
  | some s => if has_chinese s then { curr with title := s } else curr
  | none => curr

/-- The `inputs`/`widgets`/`outputs` updates of `_merge_translations`. -/
def merge_sections_node (curr : NodeRec) (trans : TransRec) : NodeRec :=
  { curr with
    inputs := merge_section curr.inputs (trans.inputs.getD [])
    widgets := merge_section curr.widgets (trans.widgets.getD [])
    outputs := merge_section curr.outputs (trans.outputs.getD []) }

/-- The per-node body of `_merge_translations` (translator.py lines 1153-1169). -/
def merge_node (only_tooltips : Bool) (curr : NodeRec) (trans : TransRec) : NodeRec :=
  let c1 :=
    if only_tooltips then curr
    else merge_sections_node (merge_title curr trans.title) trans
  { c1 with tooltips := merge_section c1.tooltips (trans.tooltips.getD []) }

/-- Source `Translator._merge_translations`: `setdefault` inserts an all-default
record for a node name the current map does not hold. -/
def merge_translations (only_tooltips : Bool) (current_nodes : List (String × NodeRec))
    (translated_missing : List (String × TransRec)) : List (String × NodeRec) :=
  translated_missing.foldl (fun acc nt =>
    let c := (lookupA nt.1 acc).getD emptyNodeRec
    setEntry nt.1 (merge_node only_tooltips c nt.2) acc) current_nodes

/-- The record of untranslated fields built per node by `_collect_missing`. -/
structure MissRec where
  title : Option String := none
  inputs : List (String × String) := []
  widgets : List (String × String) := []
  outputs : List (String × String) := []
  tooltips : List (String × String) := []
deriving DecidableEq

/-- One section scan of `_collect_missing` (lines 1127-1134): a key of the
original or current section is missing when its current value has no
Chinese character or still equals the key. -/
def missing_section (osec csec : List (String × String)) :
    List (String × String) × Nat :=
  ((keysOf osec ++ keysOf csec).dedup).foldl (fun acc k =>
    let v := (lookupA k csec).getD ""
    if !has_chinese v || v = k then
      (acc.1 ++ [(k, (lookupA k osec).getD k)], acc.2 + 1)
    else acc) ([], 0)

/-- The tooltip scan of `_collect_missing` (lines 1136-1145): a target key is
missing when its current tooltip has no Chinese character. -/
def missing_tooltips (orig curr : NodeRec) : List (String × String) × Nat :=
  ((keysOf orig.inputs ++ keysOf orig.widgets ++ keysOf orig.tooltips).dedup).foldl
    (fun acc k =>
      let v := (lookupA k curr.tooltips).getD ""
      if !has_chinese v then
        (acc.1 ++ [(k, (lookupA k orig.tooltips).getD k)], acc.2 + 1)
      else acc) ([], 0)

/-- The per-node body of `_collect_missing`. -/
def collect_missing_node (only_tooltips : Bool) (orig curr : NodeRec) : MissRec × Nat :=
  let tm : Option String × Nat :=
    if only_tooltips then (none, 0)
    else if has_chinese curr.title then (none, 0) else (some orig.title, 1)
  let mi := if only_tooltips then ([], 0) else missing_section orig.inputs curr.inputs
  let mw := if only_tooltips then ([], 0) else missing_section orig.widgets curr.widgets
  let mo := if only_tooltips then ([], 0) else missing_section orig.outputs curr.outputs
  let mt := missing_tooltips orig curr
  ({ title := tm.1, inputs := mi.1, widgets := mw.1, outputs := mo.1, tooltips := mt.1 },
   tm.2 + mi.2 + mw.2 + mo.2 + mt.2)

/-- The Python truthiness test deciding whether a node enters the missing map
(`if node_miss["title"] or node_miss["inputs"] or ...`). -/
def miss_truthy (m : MissRec) : Bool :=
  (m.title.getD "") != "" || !m.inputs.isEmpty || !m.widgets.isEmpty ||
    !m.outputs.isEmpty || !m.tooltips.isEmpty

/-- Source `Translator._collect_missing`: the missing map and the total count. -/
def collect_missing (only_tooltips : Bool)
    (original_nodes current_nodes : List (String × NodeRec)) :
    List (String × MissRec) × Nat :=
  original_nodes.foldl (fun acc nv =>
    let curr := (lookupA nv.1 current_nodes).getD emptyNodeRec
    let mc := collect_missing_node only_tooltips nv.2 curr
    (if miss_truthy mc.1 then acc.1 ++ [(nv.1, mc.1)] else acc.1, acc.2 + mc.2))
    ([], 0)

/-- Covered keys of one record in `_coverage`: the title plus every section
entry whose value contains a Chinese character. -/
def covered_rec (r : NodeRec) : Nat :=
  (if has_chinese r.title then 1 else 0)
    + r.inputs.countP (fun kv => has_chinese kv.2)
    + r.widgets.countP (fun kv => has_chinese kv.2)
    + r.outputs.countP (fun kv => has_chinese kv.2)
    + r.tooltips.countP (fun kv => has_chinese kv.2)

/-- Total keys of one record in `_coverage`. -/
def total_rec (r : NodeRec) : Nat :=
  1 + r.inputs.length + r.widgets.length + r.outputs.length + r.tooltips.length

/-- Source `covered_keys` of `Translator._coverage`. -/
def coverage_covered (nodes : List (String × NodeRec)) : Nat :=
  (nodes.map (fun nv => covered_rec nv.2)).sum

/-- Source `total_keys` of `Translator._coverage`. -/
def coverage_total (nodes : List (String × NodeRec)) : Nat :=
  (nodes.map (fun nv => total_rec nv.2)).sum

/-- How the multi-round loop of `translate_nodes` ended: no gaps left,
a round fixed nothing, or the round budget ran out. -/
inductive LoopExit where
  | converged : LoopExit
  | exhausted : LoopExit
  | maxed : LoopExit
deriving DecidableEq

/-- One entry of `missing_stats` (round number, found, fixed). -/
structure RoundStat where
  round : Nat
  found : Nat
  fixed : Int
deriving DecidableEq

/-- Source `fixed = max(0, after.covered_keys - before.covered_keys)`. -/
def round_fixed (before after : Nat) : Int := max 0 ((after : Int) - (before : Int))

/-- The repair loop of `translate_nodes` (translator.py lines 343-370) over an
explicit list of round numbers.  `prov` stands for the provider call
`_translate_batch` on the missing batch of a round. -/
def run_repair_rounds (only_tooltips : Bool) (original_nodes : List (String × NodeRec))
    (prov : Nat → List (String × MissRec) → List (String × TransRec)) :
    List (String × NodeRec) → List Nat →
      List (String × NodeRec) × List RoundStat × LoopExit
  | cur, [] => (cur, [], .maxed)
  | cur, r :: rest =>
    let mc := collect_missing only_tooltips original_nodes cur
    if mc.2 = 0 then (cur, [], .converged)
    else
      let translated := prov r mc.1
      let before := coverage_covered cur
      let cur' := merge_translations only_tooltips cur translated
      let after := coverage_covered cur'
      let fixed := round_fixed before after
      let stat : RoundStat := { round := r, found := mc.2, fixed := fixed }
      if fixed = 0 then (cur', [stat], .exhausted)
      else
        let res := run_repair_rounds only_tooltips original_nodes prov cur' rest
        (res.1, stat :: res.2.1, res.2.2)

/-- Source `max_rounds = max(1, min(5, int(rounds)))`. -/
def max_rounds (rounds : Int) : Int := max 1 (min 5 rounds)

/-- Source `range(2, max_rounds + 1)`: the repair-round numbers. -/
def round_list (rounds : Int) : List Nat := List.range' 2 ((max_rounds rounds).toNat - 1)

/-- The whole multi-round phase of `translate_nodes` after the round-1 result
`final_corrected`. -/
def convergence_rounds (only_tooltips : Bool) (original_nodes : List (String × NodeRec))
    (prov : Nat → List (String × MissRec) → List (String × TransRec))
    (final_corrected : List (String × NodeRec)) (rounds : Int) :
    List (String × NodeRec) × List RoundStat × LoopExit :=
  run_repair_rounds only_tooltips original_nodes prov final_corrected (round_list rounds)

/-- The retry loop of `Translator.translate_batch` (translator.py lines
198-241) against a provider that always reports a rate-limit failure, as the
list of waited delays (the deterministic part; the uniform jitter in
`[0, 0.5]` is added on top of each entry).  Under any strategy other than
`"fixed"` the delay doubles, capped at 60, before the wait; the call raises
once `attempts >= max_retries`. -/
def rate_limit_delays_go (strategy : String) (max_retries : Nat) :
    Nat → Nat → Nat → List Nat
  | 0, _, _ => []
  | fuel + 1, attempts, delay =>
    if max_retries ≤ attempts then []
    else
      let delay' := if strategy = "fixed" then delay else min (delay * 2) 60
      delay' :: rate_limit_delays_go strategy max_retries fuel (attempts + 1) delay'

/-- The waited delays of `translate_batch` under an always-rate-limited
provider, starting from `delay = base_delay` and `attempts = 0`. -/
def rate_limit_delays (strategy : String) (max_retries base_delay : Nat) : List Nat :=
  rate_limit_delays_go strategy max_retries (max_retries + 1) 0 base_delay

/-- A node record on the extraction side (`node_parser.py`): `tooltips` is
optional because `optimize_node_info` copies it only when present, and
`_api_version` is kept when present. -/
structure PNode where
  api_version : Option String := none
  title : String := ""
  inputs : List (String × String) := []
  widgets : List (String × String) := []
  outputs : List (String × String) := []
  tooltips : Option (List (String × String)) := none
deriving DecidableEq

/-- The `type_replacements` table of `optimize_node_info`. -/
def TYPE_REPLACEMENTS : List String :=
  ["INT", "FLOAT", "BOOL", "STRING", "NUMBER", "BOOLEAN", "IMAGE", "MASK",
   "MODEL", "LATENT", "VAE", "CLIP", "CONDITIONING", "CONTROL_NET", "COMBO"]

/-- One section of `optimize_node_info`: a value equal to a known type name is
replaced by the parameter's own name, every other value is kept. -/
def optimize_section (sec : List (String × String)) : List (String × String) :=
  sec.map (fun kv => (kv.1, if TYPE_REPLACEMENTS.contains kv.2 then kv.1 else kv.2))

/-- The per-node body of `NodeParser.optimize_node_info`. -/
def optimize_node (info : PNode) : PNode :=
  { api_version := info.api_version
    title := info.title
    inputs := optimize_section info.inputs
    widgets := optimize_section info.widgets
    outputs := optimize_section info.outputs
    tooltips := info.tooltips }

/-- Source `NodeParser.optimize_node_info` over the whole node map. -/
def optimize_node_info (nodes_info : List (String × PNode)) : List (String × PNode) :=
  nodes_info.map (fun nv => (nv.1, optimize_node nv.2))

/-- The reconciliation of `parse_folder` (node_parser.py lines 651-668): a
non-empty V3 (schema-idiom) result entirely replaces the legacy result. -/
def parse_folder_reconcile (legacy_nodes v3_nodes : List (String × PNode)) :
    List (String × PNode) :=
  if v3_nodes.isEmpty then legacy_nodes else v3_nodes

/-- The map returned by `parse_folder`: the reconciled map run through
`optimize_node_info`. -/
def parse_folder_result (legacy_nodes v3_nodes : List (String × PNode)) :
    List (String × PNode) :=
  optimize_node_info (parse_folder_reconcile legacy_nodes v3_nodes)

/-- The declaration-level facts about one legacy-idiom class that the title
resolution of `parse_file` is concerned with: the class name and whether the
class body declares the `NODE_NAME` / `NODE_DISPLAY_NAME` string attributes. -/
structure PyClassDecl where
  name : String
  declared_node_name : Option String := none
  declared_display_name : Option String := none
deriving DecidableEq

/-- Python `getattr(node, attr, None)` where `node` is an `ast.ClassDef`
object: an `ast.ClassDef` carries only the fixed AST fields (`name`, `bases`,
`body`, ...), never a `NODE_NAME` or `NODE_DISPLAY_NAME` attribute, so the
call returns `None` whatever the parsed class body declares. -/
def ast_classdef_getattr (_c : PyClassDecl) (_attr : String) : Option String := none

/-- The key resolution of `parse_file` (node_parser.py lines 73-82):
`node_key = mapped_name or node_name or class_name` where `node_name` comes
from `getattr` on the AST object. -/
def resolve_node_key (node_mappings : List (String × String)) (c : PyClassDecl) : String :=
  let mapped := lookupA c.name node_mappings
  let node_name := if pyTruthy mapped then none else ast_classdef_getattr c "NODE_NAME"
  if pyTruthy mapped then mapped.getD ""
  else if pyTruthy node_name then node_name.getD ""
  else c.name

/-- The title resolution of `parse_file` (node_parser.py lines 85-89):
`display_names.get(node_key) or getattr(node, 'NODE_DISPLAY_NAME', None) or
node_key`, with `getattr` applied to the AST object. -/
def resolve_display_name (display_names : List (String × String)) (c : PyClassDecl)
    (node_key : String) : String :=
  let d1 := lookupA node_key display_names
  if pyTruthy d1 then d1.getD ""
  else
    let d2 := ast_classdef_getattr c "NODE_DISPLAY_NAME"
    if pyTruthy d2 then d2.getD "" else node_key

/-- A parsed JSON document.  Numbers are kept as their lexical token, which is
all the decoder claims need. -/
inductive JVal where
  | jnull : JVal
  | jbool : Bool → JVal
  | jnum : String → JVal
  | jstr : String → JVal
  | jarr : List JVal → JVal
  | jobj : List (String × JVal) → JVal

/-- JSON insignificant whitespace, the characters `json.loads` skips. -/
def isJsonWs (c : Char) : Bool := c = ' ' || c = '\t' || c = '\n' || c = '\r'

/-- The characters matched by the regex class `\s` over ASCII text. -/
def isReWs (c : Char) : Bool :=
  c = ' ' || c = '\t' || c = '\n' || c = '\r' || c = '\x0c' || c = '\x0b'

/-- An ASCII decimal digit. -/
def isDig (c : Char) : Bool := '0' ≤ c && c ≤ '9'

/-- Value of one hexadecimal digit, read off the code point. -/
def hexVal (c : Char) : Option Nat :=
  let n := c.toNat
  if 48 ≤ n && n ≤ 57 then some (n - 48)
  else if 97 ≤ n && n ≤ 102 then some (n - 87)
  else if 65 ≤ n && n ≤ 70 then some (n - 55)
  else none

/-- Body of a JSON string after the opening quote: the decoded characters and
the remainder after the closing quote.  Escapes follow the JSON grammar. -/
def parse_string_chars : Nat → List Char → Option (List Char × List Char)
  | 0, _ => none
  | fuel + 1, cs =>
    match cs with
    | [] => none
    | '\"' :: rest => some ([], rest)
    | '\\' :: e :: rest =>
      let esc : Option (Char × List Char) :=
        if e = '\"' then some ('\"', rest)
        else if e = '\\' then some ('\\', rest)
        else if e = '/' then some ('/', rest)
        else if e = 'b' then some ('\x08', rest)
        else if e = 'f' then some ('\x0c', rest)
        else if e = 'n' then some ('\n', rest)
        else if e = 'r' then some ('\r', rest)
        else if e = 't' then some ('\t', rest)
        else if e = 'u' then
          match rest with
          | a :: b :: c :: d :: rest2 =>
            match hexVal a, hexVal b, hexVal c, hexVal d with
            | some ha, some hb, some hc, some hd =>
              some (Char.ofNat (((ha * 16 + hb) * 16 + hc) * 16 + hd), rest2)
            | _, _, _, _ => none
          | _ => none
        else none
      match esc with
      | some p =>
        match parse_string_chars fuel p.2 with
        | some q => some (p.1 :: q.1, q.2)
        | none => none
      | none => none
    | c :: rest =>
      match parse_string_chars fuel rest with
      | some q => some (c :: q.1, q.2)
      | none => none

/-- A JSON number token (sign, integer part, optional fraction and exponent),
kept lexically. -/
def parse_number (cs : List Char) : Option (String × List Char) :=
  let sp : List Char × List Char :=
    match cs with
    | '-' :: r => (['-'], r)
    | _ => ([], cs)
  let intPart := sp.2.takeWhile isDig
  let cs2 := sp.2.dropWhile isDig
  if intPart.isEmpty then none
  else
    let fp : List Char × List Char :=
      match cs2 with
      | '.' :: r =>
        let ds := r.takeWhile isDig
        if ds.isEmpty then ([], cs2) else ('.' :: ds, r.dropWhile isDig)
      | _ => ([], cs2)
    let ep : List Char × List Char :=
      match fp.2 with
      | e :: r =>
        if e = 'e' ∨ e = 'E' then
          let sr : List Char × List Char :=
            match r with
            | s :: r2 => if s = '+' ∨ s = '-' then ([s], r2) else ([], r)
            | [] => ([], r)
          let ds := sr.2.takeWhile isDig
          if ds.isEmpty then ([], fp.2) else (e :: (sr.1 ++ ds), sr.2.dropWhile isDig)
        else ([], fp.2)
      | [] => ([], fp.2)
    some (String.mk (sp.1 ++ intPart ++ fp.1 ++ ep.1), ep.2)

mutual

/-- Strict JSON value grammar as enforced by Python `json.loads` (trailing
commas are a syntax error). -/
def parse_val : Nat → List Char → Option (JVal × List Char)
  | 0, _ => none
  | fuel + 1, cs =>
    match cs.dropWhile isJsonWs with
    | 'n' :: 'u' :: 'l' :: 'l' :: rest => some (.jnull, rest)
    | 't' :: 'r' :: 'u' :: 'e' :: rest => some (.jbool true, rest)
    | 'f' :: 'a' :: 'l' :: 's' :: 'e' :: rest => some (.jbool false, rest)
    | '\"' :: rest =>
      match parse_string_chars (rest.length + 1) rest with
      | some p => some (.jstr (String.mk p.1), p.2)
      | none => none
    | '\x7b' :: rest => parse_obj_body fuel rest
    | '[' :: rest => parse_arr_body fuel rest
    | c :: rest =>
      if c = '-' ∨ isDig c then
        match parse_number (c :: rest) with
        | some p => some (.jnum p.1, p.2)
        | none => none
      else none
    | [] => none

/-- Array body after `[`. -/
def parse_arr_body : Nat → List Char → Option (JVal × List Char)
  | 0, _ => none
  | fuel + 1, cs =>
    match cs.dropWhile isJsonWs with
    | ']' :: rest => some (.jarr [], rest)
    | cs' =>
      match parse_arr_items fuel cs' with
      | some p => some (.jarr p.1, p.2)
      | none => none

/-- One or more comma-separated array items followed by `]`. -/
def parse_arr_items : Nat → List Char → Option (List JVal × List Char)
  | 0, _ => none
  | fuel + 1, cs =>
    match parse_val fuel cs with
    | none => none
    | some p =>
      match p.2.dropWhile isJsonWs with
      | ',' :: rest2 =>
        match parse_arr_items fuel rest2 with
        | some q => some (p.1 :: q.1, q.2)
        | none => none
      | ']' :: rest2 => some ([p.1], rest2)
      | _ => none

/-- Object body after the opening brace. -/
def parse_obj_body : Nat → List Char → Option (JVal × List Char)
  | 0, _ => none
  | fuel + 1, cs =>
    match cs.dropWhile isJsonWs with
    | '\x7d' :: rest => some (.jobj [], rest)
    | cs' =>
      match parse_obj_items fuel cs' with
      | some p => some (.jobj p.1, p.2)
      | none => none

/-- One or more comma-separated object members followed by the closing brace. -/
def parse_obj_items : Nat → List Char → Option (List (String × JVal) × List Char)
  | 0, _ => none
  | fuel + 1, cs =>
    match cs.dropWhile isJsonWs with
    | '\"' :: rest =>
      match parse_string_chars (rest.length + 1) rest with
      | none => none
      | some kp =>
        match kp.2.dropWhile isJsonWs with
        | ':' :: rest2 =>
          match parse_val fuel rest2 with
          | none => none
          | some vp =>
            match vp.2.dropWhile isJsonWs with
            | ',' :: rest4 =>
              match parse_obj_items fuel rest4 with
              | some q => some ((String.mk kp.1, vp.1) :: q.1, q.2)
              | none => none
            | '\x7d' :: rest4 => some ([(String.mk kp.1, vp.1)], rest4)
            | _ => none
        | _ => none
    | _ => none

end

/-- Source `json.loads` on a character list: one value, then only whitespace. -/
def json_loads_chars (cs : List Char) : Option JVal :=
  match parse_val (cs.length + 1) cs with
  | some p => if (p.2.dropWhile isJsonWs).isEmpty then some p.1 else none
  | none => none

/-- Source `json.loads` on a string. -/
def json_loads (s : String) : Option JVal := json_loads_chars s.toList

/-- The optional `json` language tag directly after an opening fence. -/
def dropJsonTag (cs : List Char) : List Char :=
  match cs with
  | 'j' :: 's' :: 'o' :: 'n' :: rest => rest
  | _ => cs

/-- Characters before the next triple-backtick fence, if one occurs. -/
def take_until_fence : List Char → Option (List Char)
  | [] => none
  | '\x60' :: '\x60' :: '\x60' :: _ => some []
  | c :: rest =>
    match take_until_fence rest with
    | some l => some (c :: l)
    | none => none

/-- Drop trailing regex whitespace. -/
def trim_trailing_ws (cs : List Char) : List Char :=
  (cs.reverse.dropWhile isReWs).reverse

/-- The fenced-block search of `_extract_json_from_response`, the regex
`(three backticks)(json)?\s*(.*?)\s*(three backticks)` with DOTALL: the
leftmost opening fence that has a closing fence, its content trimmed of the
optional tag and surrounding whitespace. -/
def find_fenced : List Char → Option (List Char)
  | [] => none
  | '\x60' :: '\x60' :: '\x60' :: rest =>
    match take_until_fence ((dropJsonTag rest).dropWhile isReWs) with
    | some content => some (trim_trailing_ws content)
    | none => find_fenced rest
  | _ :: rest => find_fenced rest

/-- The substitution `re.sub(r',\s*(?=[...closers])', '', s)`: each comma
followed by whitespace and then a closing bracket is removed together with
that whitespace. -/
def starts_with_closer : List Char → Bool
  | c :: _ => decide (c = '\x7d' ∨ c = ']')
  | [] => false

def strip_tc_go : Nat → List Char → List Char
  | 0, cs => cs
  | fuel + 1, cs =>
    match cs with
    | [] => []
    | ',' :: rest =>
      let r := rest.dropWhile isReWs
      if starts_with_closer r
      then strip_tc_go fuel r
      else ',' :: strip_tc_go fuel rest
    | c :: rest => c :: strip_tc_go fuel rest

/-- Trailing-comma stripping over a whole character list. -/
def strip_trailing_commas (cs : List Char) : List Char := strip_tc_go cs.length cs

/-- Source `Translator._find_balanced_end`: scan tracking quoted strings, escapes and
bracket depth; the index of the last closing bracket seen at depth zero
(`none` models the Python return value `-1`). -/
def find_balanced_end_go : List Char → Nat → Bool → Bool → Nat → Option Nat → Option Nat
  | [], _, _, _, _, last => last
  | c :: rest, i, inStr, esc, depth, last =>
    if esc then find_balanced_end_go rest (i + 1) inStr false depth last
    else if c = '\\' then find_balanced_end_go rest (i + 1) inStr true depth last
    else if c = '\"' then find_balanced_end_go rest (i + 1) (!inStr) false depth last
    else if inStr then find_balanced_end_go rest (i + 1) inStr false depth last
    else
      let depth' :=
        if c = '\x7b' ∨ c = '[' then depth + 1
        else if (c = '\x7d' ∨ c = ']') ∧ 0 < depth then depth - 1
        else depth
      let last' := if depth' = 0 ∧ (c = '\x7d' ∨ c = ']') then some i else last
      find_balanced_end_go rest (i + 1) inStr false depth' last'

/-- Source `_find_balanced_end` from the start of the candidate. -/
def find_balanced_end (cs : List Char) : Option Nat :=
  find_balanced_end_go cs 0 false false 0 none

/-- Source `Translator._close_unbalanced`: the stack of still-open brackets is turned
into closers in reverse order of opening (the stack here is kept most-recent
first, so mapping it in order yields the reversed-order closers). -/
def close_unbalanced_go : List Char → Bool → Bool → List Char → List Char
  | [], _, _, stack => stack.map (fun c => if c = '\x7b' then '\x7d' else ']')
  | c :: rest, inStr, esc, stack =>
    if esc then close_unbalanced_go rest inStr false stack
    else if c = '\\' then close_unbalanced_go rest inStr true stack
    else if c = '\"' then close_unbalanced_go rest (!inStr) false stack
    else if inStr then close_unbalanced_go rest inStr false stack
    else if c = '\x7b' ∨ c = '[' then close_unbalanced_go rest inStr false (c :: stack)
    else if c = '\x7d' ∨ c = ']' then close_unbalanced_go rest inStr false stack.tail
    else close_unbalanced_go rest inStr false stack

/-- Source `_close_unbalanced`: the text with the synthesized closers appended. -/
def close_unbalanced (cs : List Char) : List Char :=
  cs ++ close_unbalanced_go cs false false []

/-- The decode-failure message of `_extract_json_from_response`, carrying the
first 100 characters of the raw text. -/
def decode_error_msg (response_text : String) : String :=
  "无法从响应中提取有效的 JSON 数据: " ++ String.mk (response_text.toList.take 100) ++ "..."

/-- Source `response_text.find(opening brace)` followed by the slice from there:
the suffix starting at the first opening brace. -/
def drop_until_brace : List Char → Option (List Char)
  | [] => none
  | c :: rest => if c = '\x7b' then some (c :: rest) else drop_until_brace rest

/-- Source `Translator._extract_json_from_response`: direct parse, then fenced block
(raw, then with trailing commas stripped), then the first-brace scan with
balance detection or synthesized closers, then the decode error. -/
def extract_json_from_response (response_text : String) : Except String JVal :=
  match json_loads response_text with
  | some v => .ok v
  | none =>
    let step2 : Option JVal :=
      match find_fenced response_text.toList with
      | some block =>
        match json_loads_chars block with
        | some v => some v
        | none => json_loads_chars (strip_trailing_commas block)
      | none => none
    match step2 with
    | some v => .ok v
    | none =>
      match drop_until_brace response_text.toList with
      | some candidate =>
        let json_str :=
          match find_balanced_end candidate with
          | some e => candidate.take (e + 1)
          | none => close_unbalanced candidate
        match json_loads_chars (strip_trailing_commas json_str) with
        | some v => .ok v
        | none => .error (decode_error_msg response_text)
      | none => .error (decode_error_msg response_text)

/-! General lemmas about the association-list operations used by the pipeline. -/

theorem keysOf_map_entry {α β : Type} (f : String → α → β) :
    ∀ l : List (String × α), keysOf (l.map (fun kv => (kv.1, f kv.1 kv.2))) = keysOf l
  | [] => rfl
  | kv :: rest => by
    simp only [List.map_cons, keysOf] at *
    exact congrArg (kv.1 :: ·) (keysOf_map_entry f rest)

theorem lookupA_map_entry {α β : Type} (f : String → α → β) (k : String) :
    ∀ l : List (String × α),
      lookupA k (l.map (fun kv => (kv.1, f kv.1 kv.2))) = (lookupA k l).map (f k)
  | [] => rfl
  | (k', v) :: rest => by
    by_cases h : k' = k
    · subst h
      simp [lookupA]
    · simp [lookupA, h, lookupA_map_entry f k rest]

theorem lookupA_setEntry_self {α : Type} (k : String) (v : α) :
    ∀ l, lookupA k (setEntry k v l) = some v
  | [] => by simp [setEntry, lookupA]
  | (k', v') :: rest => by
    by_cases h : k' = k
    · simp [setEntry, h, lookupA]
    · simp [setEntry, h, lookupA, lookupA_setEntry_self k v rest]

theorem setEntry_of_lookup_none {α : Type} (k : String) (v : α) :
    ∀ l, lookupA k l = none → setEntry k v l = l ++ [(k, v)]
  | [], _ => rfl
  | (k', v') :: rest, h => by
    by_cases hk : k' = k
    · simp [lookupA, hk] at h
    · simp only [lookupA, if_neg hk] at h
      simp [setEntry, hk, setEntry_of_lookup_none k v rest h]

theorem setEntry_of_lookup_some {α : Type} (k : String) :
    ∀ l (v : α), lookupA k l = some v → setEntry k v l = l
  | [], v, h => by simp [lookupA] at h
  | (k', v') :: rest, v, h => by
    by_cases hk : k' = k
    · simp only [lookupA, if_pos hk, Option.some.injEq] at h
      simp [setEntry, hk, h]
    · simp only [lookupA, if_neg hk] at h
      simp [setEntry, hk, setEntry_of_lookup_some k rest v h]

theorem mem_keysOf_setEntry_self {α : Type} (k : String) (v : α) :
    ∀ l, k ∈ keysOf (setEntry k v l)
  | [] => by simp [setEntry, keysOf]
  | (k', v') :: rest => by
    by_cases h : k' = k
    · simp [setEntry, h, keysOf]
    · simp only [setEntry, if_neg h, keysOf, List.map_cons, List.mem_cons]
      exact Or.inr (mem_keysOf_setEntry_self k v rest)

theorem mem_keysOf_setEntry_of_mem {α : Type} (k k' : String) (v : α) :
    ∀ l, k' ∈ keysOf l → k' ∈ keysOf (setEntry k v l)
  | [], h => by simp [keysOf] at h
  | (k0, v0) :: rest, h => by
    by_cases hk : k0 = k
    · simpa [setEntry, hk, keysOf] using (by simpa [keysOf, hk] using h)
    · simp only [keysOf, List.map_cons, List.mem_cons] at h
      rcases h with h | h
      · simp [setEntry, hk, keysOf, h]
      · simp only [setEntry, if_neg hk, keysOf, List.map_cons, List.mem_cons]
        exact Or.inr (mem_keysOf_setEntry_of_mem k k' v rest h)

/-! Lemmas about the retry loop of `translate_batch`. -/

theorem rate_limit_delays_go_length (strategy : String) (mr : Nat) :
    ∀ fuel a d, mr - a < fuel →
      (rate_limit_delays_go strategy mr fuel a d).length = mr - a
  | 0, _, _, h => absurd h (by omega)
  | fuel + 1, a, d, h => by
    by_cases hma : mr ≤ a
    · simp only [rate_limit_delays_go, if_pos hma, List.length_nil]
      omega
    · simp only [rate_limit_delays_go, if_neg hma, List.length_cons]
      rw [rate_limit_delays_go_length strategy mr fuel (a + 1) _ (by omega)]
      omega

theorem rate_limit_delays_length (strategy : String) (mr b : Nat) :
    (rate_limit_delays strategy mr b).length = mr := by
  unfold rate_limit_delays
  rw [rate_limit_delays_go_length strategy mr (mr + 1) 0 b (by omega)]
  omega

theorem rate_limit_delays_go_chain (mr : Nat) :
    ∀ fuel a d,
      List.Chain' (fun x y => y = min (x * 2) 60)
        (rate_limit_delays_go "exponential" mr fuel a d) ∧
      (∀ x, (rate_limit_delays_go "exponential" mr fuel a d).head? = some x →
        x = min (d * 2) 60)
  | 0, _, _ => by simp [rate_limit_delays_go]
  | fuel + 1, a, d => by
    by_cases hma : mr ≤ a
    · simp [rate_limit_delays_go, if_pos hma]
    · have ih := rate_limit_delays_go_chain mr fuel (a + 1) (min (d * 2) 60)
      have hs : ¬(("exponential" : String) = "fixed") := by decide
      simp only [rate_limit_delays_go, if_neg hma, if_neg hs]
      constructor
      · rw [List.chain'_cons']
        exact ⟨fun y hy => ih.2 y hy, ih.1⟩
      · intro x hx
        simp only [List.head?_cons, Option.some.injEq] at hx
        exact hx.symm

/-- C6, counterexample: under `strategy=exponential, base_delay=2,
max_retries=3` and an always-rate-limited provider, the waited delays of
`translate_batch` are not `2s, 4s, 8s`; the very first wait is 4 seconds,
because the code doubles `delay` before every `time.sleep`. -/
theorem C6_counterexample :
    rate_limit_delays "exponential" 3 2 ≠ [2, 4, 8] ∧
    (rate_limit_delays "exponential" 3 2).head? = some 4 := by
  exact ⟨by decide, by decide⟩

/-- C6, amended: under `strategy=exponential, baseDelaySeconds=2,
maxRetries=3` and an always-rate-limited provider, `translate_batch` fails
permanently after exactly 3 retries, but the waited delays are `4s, 8s, 16s`
(plus bounded jitter): the delay doubles, capped at 60 seconds, before each
wait, so the first waited delay is `min(2*base, 60)`, not the base delay. -/
theorem C6_retry_policy :
    rate_limit_delays "exponential" 3 2 = [4, 8, 16] ∧
    (rate_limit_delays "exponential" 3 2).length = 3 ∧
    (∀ mr b, (rate_limit_delays "exponential" mr b).length = mr) ∧
    (∀ mr b, List.Chain' (fun x y => y = min (x * 2) 60)
      (rate_limit_delays "exponential" mr b)) ∧
    (∀ mr b x, (rate_limit_delays "exponential" mr b).head? = some x →
      x = min (b * 2) 60) := by
  refine ⟨by decide, by decide, ?_, ?_, ?_⟩
  · exact fun mr b => rate_limit_delays_length "exponential" mr b
  · exact fun mr b => (rate_limit_delays_go_chain mr (mr + 1) 0 b).1
  · exact fun mr b x hx => (rate_limit_delays_go_chain mr (mr + 1) 0 b).2 x hx

/-- C6, witness: the general conjuncts of the amended theorem evaluated at
`maxRetries=5, base=4`, whose first waited delay is 8 seconds. -/
theorem C6_retry_policy_witness :
    (rate_limit_delays "exponential" 5 4).length = 5 ∧ (8 : Nat) = min (4 * 2) 60 :=
  ⟨C6_retry_policy.2.2.1 5 4, C6_retry_policy.2.2.2.2 5 4 8 (by decide)⟩

/-- C7: the middle tier of the legacy title resolution is dead code.  For a
class declaring `NODE_DISPLAY_NAME` but absent from the display-name table,
`parse_file` resolves the title to the node key and never to the declared
attribute, because `getattr` is applied to the `ast.ClassDef` object; the
table tier and the key fallback do work. -/
theorem C7_display_name_attribute_ignored :
    resolve_display_name [] ⟨"MyNode", none, some "My Nice Node"⟩ "MyNode" = "MyNode" ∧
    (⟨"MyNode", none, some "My Nice Node"⟩ : PyClassDecl).declared_display_name
      = some "My Nice Node" ∧
    resolve_display_name [("MyNode", "映射标题")] ⟨"MyNode", none, some "My Nice Node"⟩
      "MyNode" = "映射标题" ∧
    ("MyNode" : String) ≠ "My Nice Node" := by
  exact ⟨by decide, rfl, by decide, by decide⟩


/-! Lemmas about the plausibility check. -/

theorem no_chinese_options_never_valid (key : String) (opts : List String)
    (hlk : lookupA (strLower key) VALIDATOR_TRANSLATIONS = some opts)
    (hopts : ∀ o ∈ opts, has_chinese o = false) :
    ∀ v, is_valid_translation key v = false := by
  intro v
  cases v with
  | none => rfl
  | some t =>
    simp only [is_valid_translation]
    split_ifs with h1 h2 h3 h4
    · rfl
    · rfl
    · rfl
    · rfl
    · rw [hlk]
      have ht : has_chinese t = true := by
        revert h2
        cases has_chinese t <;> simp
      cases hb : opts.contains t with
      | false => exact hb
      | true =>
        have hmem : t ∈ opts := by simpa using hb
        rw [hopts t hmem] at ht
        cases ht

/-- C10: for the key `epsilon` the canonical option set is `{epsilon, eps}`,
neither of which contains a Chinese character, while the check also demands a
Chinese character; hence the plausibility check rejects every candidate, and
batch validation always produces the original key name `epsilon` as the value
(likewise for any key whose canonical option set has no Chinese string). -/
theorem C10_epsilon_unsatisfiable :
    (∀ v, is_valid_translation "epsilon" v = false) ∧
    (∀ key opts, lookupA (strLower key) VALIDATOR_TRANSLATIONS = some opts →
      (∀ o ∈ opts, has_chinese o = false) →
      ∀ v, is_valid_translation key v = false) ∧
    (∀ trans_section, decide_value "epsilon" trans_section = "epsilon") := by
  refine ⟨?_, ?_, ?_⟩
  · exact no_chinese_options_never_valid "epsilon" ["epsilon", "eps"] (by decide) (by decide)
  · exact fun key opts h1 h2 => no_chinese_options_never_valid key opts h1 h2
  · intro ts
    rfl

/-- C10, witness: the general conjuncts applied to `epsilon` and the
candidate `厄普西隆`. -/
theorem C10_witness :
    is_valid_translation "epsilon" (some "厄普西隆") = false ∧
    decide_value "epsilon" [("epsilon", "厄普西隆")] = "epsilon" :=
  ⟨C10_epsilon_unsatisfiable.2.1 "epsilon" ["epsilon", "eps"] (by decide) (by decide)
      (some "厄普西隆"),
   C10_epsilon_unsatisfiable.2.2 [("epsilon", "厄普西隆")]⟩

/-- C8: the plausibility check accepts a candidate exactly when it is a
nonempty string containing a Chinese character, free of the path/shell
special characters, of length at most `3*len(key)+10`, and, for a key of the
canonical table, equal to one of the canonical options; in other words it
rejects exactly the union of the five listed conditions. -/
theorem C8_plausibility_characterization (key : String) (v : Option String) :
    is_valid_translation key v = true ↔
      ∃ t, v = some t ∧ t ≠ "" ∧ has_chinese t = true ∧
        (∀ c ∈ SPECIAL_CHARS, str_contains_char t c = false) ∧
        t.length ≤ 3 * key.length + 10 ∧
        (∀ opts, lookupA (strLower key) VALIDATOR_TRANSLATIONS = some opts → t ∈ opts) := by
  cases v with
  | none => simp [is_valid_translation]
  | some t =>
    simp only [is_valid_translation]
    split_ifs with h1 h2 h3 h4
    · subst h1
      simp
    · have hc : has_chinese t = false := by
        revert h2
        cases has_chinese t <;> simp
      simp [hc]
    · simp only [List.any_eq_true] at h3
      obtain ⟨c, hcmem, hcc⟩ := h3
      constructor
      · intro h
        cases h
      · rintro ⟨t', ht', _, _, hspec, _, _⟩
        injection ht' with ht'
        subst ht'
        rw [hspec c hcmem] at hcc
        cases hcc
    · constructor
      · intro h
        cases h
      · rintro ⟨t', ht', _, _, _, hlen, _⟩
        injection ht' with ht'
        subst ht'
        omega
    · have ht : has_chinese t = true := by
        revert h2
        cases has_chinese t <;> simp
      have hspec : ∀ c ∈ SPECIAL_CHARS, str_contains_char t c = false := by
        intro c hc
        by_contra hcc
        exact h3 (List.any_eq_true.mpr ⟨c, hc, by simpa using hcc⟩)
      have hlen : t.length ≤ 3 * key.length + 10 := by omega
      cases hlk : lookupA (strLower key) VALIDATOR_TRANSLATIONS with
      | none =>
        constructor
        · intro _
          exact ⟨t, rfl, h1, ht, hspec, hlen, fun opts hopts => Option.noConfusion hopts⟩
        · intro _
          rfl
      | some opts =>
        constructor
        · intro hcont
          refine ⟨t, rfl, h1, ht, hspec, hlen, fun opts' hopts' => ?_⟩
          injection hopts' with hopts'
          subst hopts'
          simpa using hcont
        · rintro ⟨t', ht', _, _, _, _, hopt⟩
          injection ht' with ht'
          subst ht'
          have := hopt opts rfl
          simpa using this

/-! Lemmas about the normalizer and the reconciliation. -/

theorem keysOf_optimize_section : ∀ sec, keysOf (optimize_section sec) = keysOf sec
  | [] => rfl
  | kv :: rest => congrArg (kv.1 :: ·) (keysOf_optimize_section rest)

theorem keysOf_optimize_info : ∀ l, keysOf (optimize_node_info l) = keysOf l
  | [] => rfl
  | nv :: rest => congrArg (nv.1 :: ·) (keysOf_optimize_info rest)

theorem lookupA_optimize_section (k : String) :
    ∀ sec, lookupA k (optimize_section sec) =
      (lookupA k sec).map (fun v => if TYPE_REPLACEMENTS.contains v then k else v)
  | [] => rfl
  | kv :: rest => by
    by_cases h : kv.1 = k
    · subst h
      simp [optimize_section, lookupA]
    · simp only [optimize_section, List.map_cons, lookupA, if_neg h]
      exact lookupA_optimize_section k rest

theorem lookupA_optimize_info (k : String) :
    ∀ l, lookupA k (optimize_node_info l) = (lookupA k l).map optimize_node
  | [] => rfl
  | nv :: rest => by
    by_cases h : nv.1 = k
    · simp [optimize_node_info, lookupA, h]
    · simp only [optimize_node_info, List.map_cons, lookupA, if_neg h]
      exact lookupA_optimize_info k rest

/-- C9: `optimize_node_info` preserves the node keys, and per node it
preserves every parameter key of `inputs`/`widgets`/`outputs`, passes the
title, the optional tooltips mapping and the api-version marker through
unchanged, and rewrites exactly those values that literally equal a known
type name to the parameter's own name. -/
theorem C9_optimize_frame (nodes_info : List (String × PNode)) :
    keysOf (optimize_node_info nodes_info) = keysOf nodes_info ∧
    ∀ n info, lookupA n nodes_info = some info →
      lookupA n (optimize_node_info nodes_info) = some (optimize_node info) ∧
      (optimize_node info).title = info.title ∧
      (optimize_node info).tooltips = info.tooltips ∧
      (optimize_node info).api_version = info.api_version ∧
      keysOf (optimize_node info).inputs = keysOf info.inputs ∧
      keysOf (optimize_node info).widgets = keysOf info.widgets ∧
      keysOf (optimize_node info).outputs = keysOf info.outputs ∧
      (∀ k, lookupA k (optimize_node info).inputs = (lookupA k info.inputs).map
        (fun v => if TYPE_REPLACEMENTS.contains v then k else v)) ∧
      (∀ k, lookupA k (optimize_node info).widgets = (lookupA k info.widgets).map
        (fun v => if TYPE_REPLACEMENTS.contains v then k else v)) ∧
      (∀ k, lookupA k (optimize_node info).outputs = (lookupA k info.outputs).map
        (fun v => if TYPE_REPLACEMENTS.contains v then k else v)) := by
  constructor
  · exact keysOf_optimize_info nodes_info
  · intro n info h
    refine ⟨?_, rfl, rfl, rfl,
      keysOf_optimize_section _, keysOf_optimize_section _, keysOf_optimize_section _,
      fun k => lookupA_optimize_section k _,
      fun k => lookupA_optimize_section k _,
      fun k => lookupA_optimize_section k _⟩
    rw [lookupA_optimize_info n nodes_info, h]
    rfl

/-- C9, witness: the per-key rule applied to a node whose input `img` holds
the leaked type placeholder `IMAGE` and whose input `x` holds an ordinary
value. -/
theorem C9_witness :
    lookupA "img" (optimize_node
        ({ title := "T", inputs := [("img", "IMAGE"), ("x", "x")] } : PNode)).inputs =
      (lookupA "img" ([("img", "IMAGE"), ("x", "x")] : List (String × String))).map
        (fun v => if TYPE_REPLACEMENTS.contains v then "img" else v) :=
  ((C9_optimize_frame [("A", { title := "T", inputs := [("img", "IMAGE"), ("x", "x")] })]).2
    "A" { title := "T", inputs := [("img", "IMAGE"), ("x", "x")] }
    (by decide)).2.2.2.2.2.2.2.1 "img"

/-- C2: when the schema-idiom (V3) scan yields at least one node, its result
entirely replaces the legacy result in `parse_folder` -- the returned map is
exactly the normalized schema map, its keys are the schema keys, and any
node found only by the legacy scan is absent; only when the schema scan
yields nothing does the legacy result stand. -/
theorem C2_schema_idiom_replaces_legacy (legacy v3 : List (String × PNode)) :
    (v3 ≠ [] →
      parse_folder_result legacy v3 = optimize_node_info v3 ∧
      keysOf (parse_folder_result legacy v3) = keysOf v3 ∧
      (∀ k, k ∈ keysOf legacy → k ∉ keysOf v3 →
        k ∉ keysOf (parse_folder_result legacy v3))) ∧
    (v3 = [] → parse_folder_result legacy v3 = optimize_node_info legacy) := by
  constructor
  · intro hne
    have he : v3.isEmpty = false := by
      cases v3 with
      | nil => exact absurd rfl hne
      | cons a l => rfl
    have h1 : parse_folder_result legacy v3 = optimize_node_info v3 := by
      unfold parse_folder_result parse_folder_reconcile
      rw [he]
      simp
    refine ⟨h1, ?_, ?_⟩
    · rw [h1, keysOf_optimize_info]
    · intro k _ hnk
      rw [h1, keysOf_optimize_info]
      exact hnk
  · intro he
    subst he
    rfl

/-- C2, witness: a plugin carrying both idioms; the legacy node is absent
from the result and the result equals the normalized schema map. -/
theorem C2_witness :
    parse_folder_result [("LegacyNode", { title := "L" })] [("SchemaNode", { title := "S" })] =
      optimize_node_info [("SchemaNode", ({ title := "S" } : PNode))] ∧
    "LegacyNode" ∉ keysOf (parse_folder_result [("LegacyNode", { title := "L" })]
      [("SchemaNode", { title := "S" })]) := by
  have h := (C2_schema_idiom_replaces_legacy [("LegacyNode", { title := "L" })]
    [("SchemaNode", { title := "S" })]).1 (by decide)
  exact ⟨h.1, h.2.2 "LegacyNode" (by decide) (by decide)⟩

/-! Lemmas about the strict batch validator. -/

theorem lookupA_correct_section (k : String) (ts : List (String × String)) :
    ∀ osec, lookupA k (correct_section osec ts) =
      (lookupA k osec).map (fun _ => decide_value k ts)
  | [] => rfl
  | kv :: rest => by
    by_cases h : kv.1 = k
    · subst h
      simp [correct_section, lookupA]
    · simp only [correct_section, List.map_cons, lookupA, if_neg h]
      exact lookupA_correct_section k ts rest

/-- C3: for every key of an original section, the batch validator decides
the final value by the four-step priority -- reserved opaque type first
(forcing the upper-cased reserved name whatever the provider sent), then the
static term dictionary, then a provider value passing the plausibility
check, then the original key itself -- and the validated sections hold
exactly that decision for every original key. -/
theorem C3_batch_value_priority (key : String) (trans_section : List (String × String)) :
    (PRESERVED_TYPES.contains (strUpper key) = true →
      decide_value key trans_section = strUpper key) ∧
    (PRESERVED_TYPES.contains (strUpper key) = false →
      ∀ std, lookupA (strLower key) COMMON_TRANSLATIONS = some std →
        decide_value key trans_section = std) ∧
    (PRESERVED_TYPES.contains (strUpper key) = false →
      lookupA (strLower key) COMMON_TRANSLATIONS = none →
      ∀ v, lookupA key trans_section = some v →
        (is_valid_translation key (some v) = true → decide_value key trans_section = v) ∧
        (is_valid_translation key (some v) = false → decide_value key trans_section = key)) ∧
    (PRESERVED_TYPES.contains (strUpper key) = false →
      lookupA (strLower key) COMMON_TRANSLATIONS = none →
      lookupA key trans_section = none →
      decide_value key trans_section = key) ∧
    (∀ orig trans k, lookupA k (strict_validate_node orig trans).inputs =
      (lookupA k orig.inputs).map (fun _ => decide_value k (trans.inputs.getD []))) ∧
    (∀ orig trans k, lookupA k (strict_validate_node orig trans).widgets =
      (lookupA k orig.widgets).map (fun _ => decide_value k (trans.widgets.getD []))) ∧
    (∀ orig trans k, lookupA k (strict_validate_node orig trans).outputs =
      (lookupA k orig.outputs).map (fun _ => decide_value k (trans.outputs.getD []))) := by
  refine ⟨?_, ?_, ?_, ?_, ?_, ?_, ?_⟩
  · intro h
    unfold decide_value
    rw [h]
    simp
  · intro h std hstd
    unfold decide_value
    rw [h, hstd]
    simp
  · intro h hc v hv
    constructor
    · intro hval
      unfold decide_value
      rw [h, hc, hv]
      simp [hval]
    · intro hval
      unfold decide_value
      rw [h, hc, hv]
      simp [hval]
  · intro h hc hn
    unfold decide_value
    rw [h, hc, hn]
    simp
  · exact fun orig trans k => lookupA_correct_section k _ orig.inputs
  · exact fun orig trans k => lookupA_correct_section k _ orig.widgets
  · exact fun orig trans k => lookupA_correct_section k _ orig.outputs

/-- C3, witness: one concrete key per priority tier -- `image` is reserved,
`source` takes the dictionary entry, `foo` takes a plausible provider value,
an implausible provider value for `foo` falls back to the key, and a missing
provider value for `foo` falls back to the key. -/
theorem C3_witness :
    decide_value "image" [("image", "图像")] = "IMAGE" ∧
    decide_value "source" [("source", "来源地")] = "源" ∧
    decide_value "foo" [("foo", "呀")] = "呀" ∧
    decide_value "foo" [("foo", "bad")] = "foo" ∧
    decide_value "foo" [] = "foo" :=
  ⟨(C3_batch_value_priority "image" [("image", "图像")]).1 (by decide),
   (C3_batch_value_priority "source" [("source", "来源地")]).2.1 (by decide) "源" (by decide),
   ((C3_batch_value_priority "foo" [("foo", "呀")]).2.2.1 (by decide) (by decide)
      "呀" (by decide)).1 (by decide),
   ((C3_batch_value_priority "foo" [("foo", "bad")]).2.2.1 (by decide) (by decide)
      "bad" (by decide)).2 (by decide),
   (C3_batch_value_priority "foo" []).2.2.2.1 (by decide) (by decide) (by decide)⟩

/-- C4: the response decoder applies its four steps in order with first
success winning -- a directly parseable text is returned as-is; the
trailing-comma input recovers the object after comma stripping in step 3
(the direct parse is strict and fails); a fenced block inside prose is
recovered in step 2; the unbalanced input is completed by synthesizing the
closing brackets in reverse order of opening and recovered; and when every
step fails the raised error carries the first 100 characters of the raw
text. -/
theorem C4_response_decoder :
    (∀ t v, json_loads t = some v → extract_json_from_response t = Except.ok v) ∧
    json_loads "\x7b\"a\": 1,\x7d" = none ∧
    extract_json_from_response "\x7b\"a\": 1,\x7d" = .ok (.jobj [("a", .jnum "1")]) ∧
    extract_json_from_response "Here is the result:\n```json\n\x7b\"a\": 1\x7d\n```\nDone."
      = .ok (.jobj [("a", .jnum "1")]) ∧
    extract_json_from_response "\x7b\"a\": [1, 2"
      = .ok (.jobj [("a", .jarr [.jnum "1", .jnum "2"])]) ∧
    close_unbalanced ("\x7b\"a\": [1, 2".toList) = ("\x7b\"a\": [1, 2]\x7d".toList) ∧
    extract_json_from_response "hello world"
      = .error ("无法从响应中提取有效的 JSON 数据: hello world...") ∧
    (∀ t e, extract_json_from_response t = .error e → e = decode_error_msg t) := by
  refine ⟨?_, rfl, rfl, rfl, rfl, rfl, rfl, ?_⟩
  · intro t v h
    unfold extract_json_from_response
    rw [h]
  · intro t e h
    unfold extract_json_from_response at h
    try dsimp only at h
    repeat' split at h
    all_goals cases h <;> rfl

/-- C4, witness: the first-success rule applied to a directly parseable
response. -/
theorem C4_witness :
    extract_json_from_response "\x7b\"b\": true\x7d" = Except.ok (.jobj [("b", .jbool true)]) :=
  C4_response_decoder.1 "\x7b\"b\": true\x7d" (.jobj [("b", .jbool true)]) rfl

/-! Lemmas about key provenance in the validators and the merge. -/

theorem keysOf_correct_section (ts : List (String × String)) :
    ∀ osec, keysOf (correct_section osec ts) = keysOf osec
  | [] => rfl
  | kv :: rest => congrArg (kv.1 :: ·) (keysOf_correct_section ts rest)

theorem keysOf_final_section (ts : List (String × String)) :
    ∀ osec, keysOf (final_section osec ts) = keysOf osec
  | [] => rfl
  | kv :: rest => congrArg (kv.1 :: ·) (keysOf_final_section ts rest)

theorem keysOf_map_keyed {α : Type} (g : String → String × α) (hg : ∀ k, (g k).1 = k) :
    ∀ l : List String, keysOf (l.map g) = l
  | [] => rfl
  | a :: rest => by
    show (g a).1 :: keysOf (rest.map g) = a :: rest
    rw [hg a, keysOf_map_keyed g hg rest]

theorem mem_keysOf_map_keyed {α : Type} (g : String → String × α) (hg : ∀ k, (g k).1 = k) :
    ∀ (l : List String) (k : String), k ∈ keysOf (l.map g) → k ∈ l
  | [], k, h => by simp [keysOf] at h
  | a :: rest, k, h => by
    have h' : k = (g a).1 ∨ k ∈ keysOf (rest.map g) := by
      simpa [keysOf] using h
    cases h' with
    | inl h' => exact (h'.trans (hg a)) ▸ List.mem_cons_self a rest
    | inr h' => exact List.mem_cons_of_mem a (mem_keysOf_map_keyed g hg rest k h')

theorem mem_keysOf_filterMap_keyed {α : Type} (g : String → Option (String × α))
    (hg : ∀ k p, g k = some p → p.1 = k) :
    ∀ (l : List String) (k : String), k ∈ keysOf (l.filterMap g) → k ∈ l
  | [], k, h => by simp [keysOf] at h
  | a :: rest, k, h => by
    cases hga : g a with
    | none =>
      simp only [List.filterMap_cons, hga] at h
      exact List.mem_cons_of_mem a (mem_keysOf_filterMap_keyed g hg rest k h)
    | some p =>
      simp only [List.filterMap_cons, hga, keysOf, List.map_cons, List.mem_cons] at h
      cases h with
      | inl h => exact (h.trans (hg a p hga)) ▸ List.mem_cons_self a rest
      | inr h => exact List.mem_cons_of_mem a (mem_keysOf_filterMap_keyed g hg rest k h)

theorem tooltip_target_keys_mem (orig : NodeRec) (k : String)
    (h : k ∈ tooltip_target_keys orig) :
    k ∈ keysOf orig.inputs ∨ k ∈ keysOf orig.widgets ∨ k ∈ keysOf orig.tooltips := by
  unfold tooltip_target_keys at h
  rw [List.mem_dedup] at h
  simpa using h

theorem final_tooltip_targets_mem (orig : NodeRec) (ti tw : List (String × String))
    (k : String) (h : k ∈ final_tooltip_targets orig ti tw) :
    k ∈ keysOf orig.inputs ∨ k ∈ keysOf orig.widgets ∨ k ∈ keysOf ti ∨ k ∈ keysOf tw ∨
      k ∈ keysOf orig.tooltips := by
  unfold final_tooltip_targets at h
  rw [List.mem_dedup] at h
  simpa using h

theorem strict_tooltips_entry_key (orig : NodeRec) (tt : List (String × String))
    (k : String) (p : String × String)
    (hp : (match lookupA k tt with
      | some v => if is_valid_translation k (some v) then some (k, v) else none
      | none => (lookupA k orig.tooltips).map (fun ov => (k, ov))) = some p) :
    p.1 = k := by
  cases hl : lookupA k tt with
  | some v =>
    rw [hl] at hp
    have hp' : (if is_valid_translation k (some v) = true then some (k, v) else none)
        = some p := hp
    by_cases hv : is_valid_translation k (some v) = true
    · rw [if_pos hv] at hp'
      injection hp' with hp'
      rw [← hp']
    · rw [if_neg hv] at hp'
      cases hp'
  | none =>
    rw [hl] at hp
    have hp' : (lookupA k orig.tooltips).map (fun ov => (k, ov)) = some p := hp
    cases ho : lookupA k orig.tooltips with
    | some ov =>
      rw [ho] at hp'
      injection hp' with hp'
      rw [← hp']
    | none =>
      rw [ho] at hp'
      cases hp'

theorem strict_tooltips_keys (orig : NodeRec) (tt : List (String × String)) (k : String)
    (hk : k ∈ keysOf (strict_tooltips orig tt)) :
    k ∈ keysOf orig.inputs ∨ k ∈ keysOf orig.widgets ∨ k ∈ keysOf orig.tooltips := by
  apply tooltip_target_keys_mem orig k
  exact mem_keysOf_filterMap_keyed _ (strict_tooltips_entry_key orig tt)
    (tooltip_target_keys orig) k hk

theorem mem_keysOf_merge_section_of_mem (k : String) :
    ∀ tsec sec, k ∈ keysOf sec → k ∈ keysOf (merge_section sec tsec)
  | [], _, h => h
  | kv :: rest, sec, h => by
    show k ∈ keysOf (merge_section (if has_chinese kv.2 then setEntry kv.1 kv.2 sec else sec) rest)
    apply mem_keysOf_merge_section_of_mem k rest
    by_cases hc : has_chinese kv.2 = true
    · rw [if_pos hc]
      exact mem_keysOf_setEntry_of_mem kv.1 k kv.2 sec h
    · rw [if_neg hc]
      exact h

theorem mem_keysOf_merge_section_inserted (k v : String) (hch : has_chinese v = true) :
    ∀ tsec sec, (k, v) ∈ tsec → k ∈ keysOf (merge_section sec tsec)
  | [], _, h => by cases h
  | kv :: rest, sec, h => by
    cases h with
    | head =>
      show k ∈ keysOf (merge_section (if has_chinese v then setEntry k v sec else sec) rest)
      apply mem_keysOf_merge_section_of_mem k rest
      rw [if_pos hch]
      exact mem_keysOf_setEntry_self k v sec
    | tail _ h' =>
      show k ∈ keysOf (merge_section (if has_chinese kv.2 then setEntry kv.1 kv.2 sec else sec) rest)
      exact mem_keysOf_merge_section_inserted k v hch rest _ h'

/-- C1, counterexample: the convergence-round merge manufactures a
parameter.  The original extraction of node `N` has the single input
`image`, but when the repair-round provider reply carries the unknown key
`fake_key` with a Chinese value, the merged (final) record for `N` holds
`fake_key` among its inputs even though it never appeared in the original
record. -/
theorem C1_counterexample :
    "fake_key" ∈ keysOf (((lookupA "N" (merge_translations false
        [("N", { title := "标题", inputs := [("image", "图像")] })]
        [("N", { inputs := some [("fake_key", "假参数")] })])).getD emptyNodeRec).inputs) ∧
    "fake_key" ∉ keysOf ([("image", "图像")] : List (String × String)) := by
  exact ⟨by decide, by decide⟩

/-- C1, amended: batch validation keeps exactly the original keys in
`inputs`/`widgets`/`outputs` and draws tooltip keys from the original
record; final validation keeps exactly the original section keys and draws
tooltip keys from the original record plus the translated inputs/widgets
keys (within the pipeline those are themselves original keys); the
convergence-round merge, however, writes into the record every
provider-returned key whose value contains a Chinese character, including
keys never present in the original extraction. -/
theorem C1_key_provenance
    (orig_batch : List (String × NodeRec)) (trans_batch : List (String × TransRec)) :
    (∀ n info, (n, info) ∈ strict_validate_and_correct_batch orig_batch trans_batch →
      ∃ o, (n, o) ∈ orig_batch ∧
        keysOf info.inputs = keysOf o.inputs ∧
        keysOf info.widgets = keysOf o.widgets ∧
        keysOf info.outputs = keysOf o.outputs ∧
        (∀ k, k ∈ keysOf info.tooltips →
          k ∈ keysOf o.inputs ∨ k ∈ keysOf o.widgets ∨ k ∈ keysOf o.tooltips)) ∧
    (∀ fd dt n info, (n, info) ∈ final_validation fd dt orig_batch trans_batch →
      ∃ o, (n, o) ∈ orig_batch ∧
        keysOf info.inputs = keysOf o.inputs ∧
        keysOf info.widgets = keysOf o.widgets ∧
        keysOf info.outputs = keysOf o.outputs ∧
        (∀ k, k ∈ keysOf info.tooltips →
          k ∈ keysOf o.inputs ∨ k ∈ keysOf o.widgets ∨ k ∈ keysOf o.tooltips ∨
          (∃ t, lookupA n trans_batch = some t ∧
            (k ∈ keysOf (t.inputs.getD []) ∨ k ∈ keysOf (t.widgets.getD []))))) ∧
    (∀ cur n t k v, (k, v) ∈ t.inputs.getD [] → has_chinese v = true →
      k ∈ keysOf (((lookupA n (merge_translations false cur [(n, t)])).getD
        emptyNodeRec).inputs)) := by
  refine ⟨?_, ?_, ?_⟩
  · intro n info hmem
    unfold strict_validate_and_correct_batch at hmem
    rw [List.mem_map] at hmem
    obtain ⟨nv, hnv, heq⟩ := hmem
    cases hl : lookupA nv.1 trans_batch with
    | none =>
      rw [hl] at heq
      refine ⟨info, heq ▸ hnv, rfl, rfl, rfl, ?_⟩
      intro k hk
      exact Or.inr (Or.inr hk)
    | some t =>
      rw [hl] at heq
      have hn : nv.1 = n := congrArg Prod.fst heq
      have hi : strict_validate_node nv.2 t = info := congrArg Prod.snd heq
      refine ⟨nv.2, ?_, ?_, ?_, ?_, ?_⟩
      · rw [← hn]
        exact hnv
      · rw [← hi]
        exact keysOf_correct_section _ nv.2.inputs
      · rw [← hi]
        exact keysOf_correct_section _ nv.2.widgets
      · rw [← hi]
        exact keysOf_correct_section _ nv.2.outputs
      · intro k hk
        rw [← hi] at hk
        exact strict_tooltips_keys nv.2 _ k hk
  · intro fd dt n info hmem
    unfold final_validation at hmem
    rw [List.mem_map] at hmem
    obtain ⟨nv, hnv, heq⟩ := hmem
    cases hl : lookupA nv.1 trans_batch with
    | none =>
      rw [hl] at heq
      refine ⟨info, heq ▸ hnv, rfl, rfl, rfl, ?_⟩
      intro k hk
      exact Or.inr (Or.inr (Or.inl hk))
    | some t =>
      rw [hl] at heq
      have heq' : (if (t.title.isSome && t.inputs.isSome && t.widgets.isSome
          && t.outputs.isSome) = true
          then (nv.1, final_validate_node fd dt nv.2 t) else nv) = (n, info) := heq
      by_cases hall : (t.title.isSome && t.inputs.isSome && t.widgets.isSome
          && t.outputs.isSome) = true
      · rw [if_pos hall] at heq'
        have hn : nv.1 = n := congrArg Prod.fst heq'
        have hi : final_validate_node fd dt nv.2 t = info := congrArg Prod.snd heq'
        refine ⟨nv.2, ?_, ?_, ?_, ?_, ?_⟩
        · rw [← hn]
          exact hnv
        · rw [← hi]
          exact keysOf_final_section _ nv.2.inputs
        · rw [← hi]
          exact keysOf_final_section _ nv.2.widgets
        · rw [← hi]
          exact keysOf_final_section _ nv.2.outputs
        · intro k hk
          rw [← hi] at hk
          have hk2 : k ∈ keysOf ((final_tooltip_targets nv.2 (t.inputs.getD [])
              (t.widgets.getD [])).map (final_tooltip_entry fd dt nv.2
                (t.inputs.getD []) (t.widgets.getD []) (t.tooltips.getD [])
                (final_section nv.2.inputs (t.inputs.getD []))
                (final_section nv.2.widgets (t.widgets.getD [])))) := hk
          have hk' : k ∈ final_tooltip_targets nv.2 (t.inputs.getD []) (t.widgets.getD []) :=
            mem_keysOf_map_keyed _ (fun _ => rfl) _ k hk2
          rcases final_tooltip_targets_mem nv.2 _ _ k hk' with h | h | h | h | h
          · exact Or.inl h
          · exact Or.inr (Or.inl h)
          · refine Or.inr (Or.inr (Or.inr ⟨t, ?_, Or.inl h⟩))
            rw [← hn]
            exact hl
          · refine Or.inr (Or.inr (Or.inr ⟨t, ?_, Or.inr h⟩))
            rw [← hn]
            exact hl
          · exact Or.inr (Or.inr (Or.inl h))
      · rw [if_neg hall] at heq'
        refine ⟨info, heq' ▸ hnv, rfl, rfl, rfl, ?_⟩
        intro k hk
        exact Or.inr (Or.inr (Or.inl hk))
  · intro cur n t k v hkv hch
    show k ∈ keysOf (((lookupA n (setEntry n
      (merge_node false ((lookupA n cur).getD emptyNodeRec) t) cur)).getD
        emptyNodeRec).inputs)
    rw [lookupA_setEntry_self]
    exact mem_keysOf_merge_section_inserted k v hch (t.inputs.getD []) _ hkv

/-- C1, witness: the merge conjunct applied to an empty current map and a
provider reply holding the Chinese-valued key `k1`. -/
theorem C1_witness :
    "k1" ∈ keysOf (((lookupA "M" (merge_translations false ([] : List (String × NodeRec))
        [("M", { inputs := some [("k1", "中文值")] })])).getD emptyNodeRec).inputs) :=
  (C1_key_provenance [] []).2.2 [] "M" { inputs := some [("k1", "中文值")] } "k1" "中文值"
    (by decide) (by decide)

/-! Lemmas about the convergence loop. -/

/-- All values of a section list lack a Chinese character. -/
def no_chinese_vals (l : List (String × String)) : Prop :=
  ∀ kv ∈ l, has_chinese kv.2 = false

/-- A provider reply record none of whose values contains a Chinese
character. -/
def trans_rec_no_chinese (t : TransRec) : Prop :=
  (∀ s, t.title = some s → has_chinese s = false) ∧
  no_chinese_vals (t.inputs.getD []) ∧ no_chinese_vals (t.widgets.getD []) ∧
  no_chinese_vals (t.outputs.getD []) ∧ no_chinese_vals (t.tooltips.getD [])

/-- A whole reply map that never translates anything. -/
def trans_map_no_chinese (m : List (String × TransRec)) : Prop :=
  ∀ nt ∈ m, trans_rec_no_chinese nt.2

theorem merge_section_no_chinese :
    ∀ tsec sec, no_chinese_vals tsec → merge_section sec tsec = sec
  | [], _, _ => rfl
  | kv :: rest, sec, h => by
    have hkv : has_chinese kv.2 = false := h kv (List.mem_cons_self kv rest)
    have hrest : no_chinese_vals rest := fun x hx => h x (List.mem_cons_of_mem kv hx)
    show merge_section (if has_chinese kv.2 then setEntry kv.1 kv.2 sec else sec) rest = sec
    rw [hkv, if_neg Bool.false_ne_true]
    exact merge_section_no_chinese rest sec hrest

theorem merge_title_no_chinese (c : NodeRec) (tt : Option String)
    (hti : ∀ s, tt = some s → has_chinese s = false) : merge_title c tt = c := by
  cases htl : tt with
  | none => rfl
  | some s =>
    have hs : has_chinese s = false := hti s htl
    show (if has_chinese s = true then { c with title := s } else c) = c
    rw [hs, if_neg Bool.false_ne_true]

theorem merge_sections_node_no_chinese (c : NodeRec) (t : TransRec)
    (hin : no_chinese_vals (t.inputs.getD []))
    (hw : no_chinese_vals (t.widgets.getD []))
    (ho : no_chinese_vals (t.outputs.getD [])) : merge_sections_node c t = c := by
  unfold merge_sections_node
  rw [merge_section_no_chinese _ _ hin, merge_section_no_chinese _ _ hw,
    merge_section_no_chinese _ _ ho]

theorem merge_node_no_chinese (ot : Bool) (c : NodeRec) (t : TransRec)
    (h : trans_rec_no_chinese t) : merge_node ot c t = c := by
  obtain ⟨hti, hin, hw, ho, htt⟩ := h
  cases ot with
  | true =>
    show ({ c with tooltips := merge_section c.tooltips (t.tooltips.getD []) } : NodeRec) = c
    rw [merge_section_no_chinese _ _ htt]
  | false =>
    show ({ merge_sections_node (merge_title c t.title) t with
        tooltips := merge_section (merge_sections_node (merge_title c t.title) t).tooltips
          (t.tooltips.getD []) } : NodeRec) = c
    rw [merge_title_no_chinese c t.title hti, merge_sections_node_no_chinese c t hin hw ho]
    rw [merge_section_no_chinese _ _ htt]

theorem coverage_covered_append (l : List (String × NodeRec)) (x : String × NodeRec) :
    coverage_covered (l ++ [x]) = coverage_covered l + covered_rec x.2 := by
  unfold coverage_covered
  rw [List.map_append, List.sum_append]
  rfl

theorem merge_translations_covered (ot : Bool) :
    ∀ tm cur, trans_map_no_chinese tm →
      coverage_covered (merge_translations ot cur tm) = coverage_covered cur
  | [], _, _ => rfl
  | nt :: rest, cur, h => by
    have hnt : trans_rec_no_chinese nt.2 := h nt (List.mem_cons_self nt rest)
    have hrest : trans_map_no_chinese rest := fun x hx => h x (List.mem_cons_of_mem nt hx)
    show coverage_covered (merge_translations ot
      (setEntry nt.1 (merge_node ot ((lookupA nt.1 cur).getD emptyNodeRec) nt.2) cur) rest)
      = coverage_covered cur
    rw [merge_translations_covered ot rest _ hrest]
    cases hc : lookupA nt.1 cur with
    | some c =>
      simp only [Option.getD_some]
      rw [merge_node_no_chinese ot c nt.2 hnt]
      rw [setEntry_of_lookup_some nt.1 cur c hc]
    | none =>
      simp only [Option.getD_none]
      rw [merge_node_no_chinese ot emptyNodeRec nt.2 hnt]
      rw [setEntry_of_lookup_none nt.1 emptyNodeRec cur hc]
      rw [coverage_covered_append]
      simp [covered_rec, emptyNodeRec, has_chinese, isChineseChar]

theorem run_repair_rounds_stats_le (ot : Bool) (orig : List (String × NodeRec))
    (prov : Nat → List (String × MissRec) → List (String × TransRec)) :
    ∀ lst cur, (run_repair_rounds ot orig prov cur lst).2.1.length ≤ lst.length
  | [], cur => by simp [run_repair_rounds]
  | r :: rest, cur => by
    simp only [run_repair_rounds]
    split
    · simp
    · split
      · simp
      · simp only [List.length_cons]
        have := run_repair_rounds_stats_le ot orig prov rest
          (merge_translations ot cur (prov r (collect_missing ot orig cur).1))
        omega

theorem length_range'_aux : ∀ (n s : Nat), (List.range' s n).length = n
  | 0, _ => rfl
  | n + 1, s => congrArg Nat.succ (length_range'_aux n (s + 1))

theorem round_list_cons (rounds : Int) (h : 2 ≤ rounds) :
    round_list rounds = 2 :: List.range' 3 ((max_rounds rounds).toNat - 2) := by
  have hmin : (2 : Int) ≤ min 5 rounds := le_min (by norm_num) h
  have hmr : (2 : Int) ≤ max_rounds rounds := le_trans hmin (le_max_right 1 _)
  unfold round_list
  have h1 : (max_rounds rounds).toNat - 1 = ((max_rounds rounds).toNat - 2) + 1 := by
    omega
  rw [h1]
  rfl

/-- C5: the multi-round phase of `translate_nodes` runs at most
`clamp(rounds, 1, 5)` rounds in total (round 1 plus the repair rounds);
entering a repair round with an empty missing set stops immediately as
converged; a repair round that fixes zero entries stops immediately as
exhausted; and with a provider that never produces a Chinese character,
exactly one repair round beyond round 1 executes, ending exhausted. -/
theorem C5_convergence_loop (ot : Bool) (orig : List (String × NodeRec))
    (prov : Nat → List (String × MissRec) → List (String × TransRec))
    (cur : List (String × NodeRec)) (rounds : Int) :
    (1 + ((convergence_rounds ot orig prov cur rounds).2.1.length : Int)
      ≤ max_rounds rounds) ∧
    ((collect_missing ot orig cur).2 = 0 → 2 ≤ rounds →
      (convergence_rounds ot orig prov cur rounds).2.1 = [] ∧
      (convergence_rounds ot orig prov cur rounds).2.2 = LoopExit.converged) ∧
    (∀ cur' r rest, (collect_missing ot orig cur').2 ≠ 0 →
      round_fixed (coverage_covered cur')
        (coverage_covered (merge_translations ot cur'
          (prov r (collect_missing ot orig cur').1))) = 0 →
      (run_repair_rounds ot orig prov cur' (r :: rest)).2.1.length = 1 ∧
      (run_repair_rounds ot orig prov cur' (r :: rest)).2.2 = LoopExit.exhausted) ∧
    ((collect_missing ot orig cur).2 ≠ 0 → 2 ≤ rounds →
      (∀ r m, trans_map_no_chinese (prov r m)) →
      (convergence_rounds ot orig prov cur rounds).2.1.length = 1 ∧
      (convergence_rounds ot orig prov cur rounds).2.2 = LoopExit.exhausted) := by
  have step_zero : ∀ cur' r rest, (collect_missing ot orig cur').2 ≠ 0 →
      round_fixed (coverage_covered cur')
        (coverage_covered (merge_translations ot cur'
          (prov r (collect_missing ot orig cur').1))) = 0 →
      (run_repair_rounds ot orig prov cur' (r :: rest)).2.1.length = 1 ∧
      (run_repair_rounds ot orig prov cur' (r :: rest)).2.2 = LoopExit.exhausted := by
    intro cur' r rest hmiss hfix
    simp only [run_repair_rounds]
    rw [if_neg hmiss, if_pos hfix]
    exact ⟨rfl, rfl⟩
  refine ⟨?_, ?_, step_zero, ?_⟩
  · have hlen := run_repair_rounds_stats_le ot orig prov (round_list rounds) cur
    have hrl : (round_list rounds).length = (max_rounds rounds).toNat - 1 := by
      unfold round_list
      exact length_range'_aux _ _
    have h1 : (1 : Int) ≤ max_rounds rounds := le_max_left 1 _
    unfold convergence_rounds
    omega
  · intro h0 h2
    unfold convergence_rounds
    rw [round_list_cons rounds h2]
    simp only [run_repair_rounds]
    rw [if_pos h0]
    exact ⟨rfl, rfl⟩
  · intro hmiss h2 hprov
    have hcov : coverage_covered (merge_translations ot cur
        (prov 2 (collect_missing ot orig cur).1)) = coverage_covered cur :=
      merge_translations_covered ot _ cur (hprov 2 _)
    have hfix : round_fixed (coverage_covered cur)
        (coverage_covered (merge_translations ot cur
          (prov 2 (collect_missing ot orig cur).1))) = 0 := by
      rw [hcov]
      unfold round_fixed
      omega
    unfold convergence_rounds
    rw [round_list_cons rounds h2]
    exact step_zero cur 2 _ hmiss hfix

/-- C5, witness: one untranslated node, a provider returning nothing, and
`rounds = 3`: the missing set is nonempty, and exactly one repair round runs
before the loop exits exhausted. -/
theorem C5_witness :
    (collect_missing false [("N", { title := "Node", inputs := [("foo", "foo")] })]
      [("N", { title := "Node", inputs := [("foo", "foo")] })]).2 ≠ 0 ∧
    (convergence_rounds false [("N", { title := "Node", inputs := [("foo", "foo")] })]
      (fun _ _ => []) [("N", { title := "Node", inputs := [("foo", "foo")] })] 3).2.1.length
      = 1 ∧
    (convergence_rounds false [("N", { title := "Node", inputs := [("foo", "foo")] })]
      (fun _ _ => []) [("N", { title := "Node", inputs := [("foo", "foo")] })] 3).2.2
      = LoopExit.exhausted := by
  have h := (C5_convergence_loop false [("N", { title := "Node", inputs := [("foo", "foo")] })]
    (fun _ _ => []) [("N", { title := "Node", inputs := [("foo", "foo")] })] 3).2.2.2
    (by decide) (by decide)
    (fun r m nt hnt => absurd hnt (List.not_mem_nil nt))
  exact ⟨by decide, h.1, h.2⟩
